/-
Verification of the suggestion-synthesis and remote-state-reconciliation
engine of the acrolinx/nextgen-analyzer GitHub action.

The TypeScript sources are shallowly embedded as executable Lean
definitions.  The repository ships three historical variants of
`commit-suggestion-service.ts` concatenated in one file; the first
variant (lines 1-469 of the concatenated file) is embedded in namespace
`V1`, the second (lines 470-1016) in namespace `V2`.  The rewrite-branch
service (`createRewriteBranch` / `createRewritePullRequest` /
`cleanupOldRewriteBranches`) is embedded in namespace `Rewrite`.

Remote (GitHub API) interactions are modelled by explicit traces of
operations (`Op`, `GOp`) over an environment that supplies the remote
responses, so that ordering and absence/presence of remote writes are
provable facts about the embedded functions.
-/
import Mathlib

/-! ## String primitives

Kernel-reducible equivalents of the JavaScript string operations used by
the source (`split('\n')`, `startsWith`, `substring(1)`, `trim`,
`includes`, `join('\n')`), defined over the character list underlying a
`String`.
-/

/-- `split('\n')` on the character level. -/
def splitCharsOnNL : List Char → List (List Char)
  | [] => [[]]
  | '\n' :: rest => [] :: splitCharsOnNL rest
  | c :: rest =>
    match splitCharsOnNL rest with
    | [] => [[c]]
    | l :: ls => (c :: l) :: ls

/-- JavaScript `s.split('\n')`. -/
def splitNL (s : String) : List String :=
  (splitCharsOnNL s.toList).map String.mk

/-- Is `pat` a prefix of `s` (on characters)? -/
def startsWithChars : List Char → List Char → Bool
  | [], _ => true
  | _ :: _, [] => false
  | p :: ps, c :: cs => p = c && startsWithChars ps cs

/-- Does `s` contain `pat` as a contiguous subsequence? -/
def charsContains (pat : List Char) : List Char → Bool
  | [] => startsWithChars pat []
  | c :: cs => startsWithChars pat (c :: cs) || charsContains pat cs

/-- JavaScript `s.startsWith(pat)`. -/
def strStartsWith (s pat : String) : Bool :=
  startsWithChars pat.toList s.toList

/-- JavaScript `s.includes(pat)`. -/
def stringIncludes (s pat : String) : Bool :=
  charsContains pat.toList s.toList

/-- JavaScript `s.substring(1)`. -/
def strDrop1 (s : String) : String :=
  String.mk (s.toList.drop 1)

/-- JavaScript `s.trim()` (whitespace per `Char.isWhitespace`). -/
def jsTrim (s : String) : String :=
  String.mk
    (((s.toList.dropWhile Char.isWhitespace).reverse.dropWhile
      Char.isWhitespace).reverse)

/-- JavaScript `arr.join('\n')`. -/
def joinWithNL : List String → String
  | [] => ""
  | [x] => x
  | x :: y :: xs => x ++ "\n" ++ joinWithNL (y :: xs)

/-! ## Line tokenization and the line differ

`generateDiff` in the source calls `diffLines` from the `diff` (jsdiff)
npm package with `ignoreWhitespace: false, ignoreNewlineAtEof: false`.
-/

/-- Tokenize a document into lines, each line keeping its trailing
newline (the final line has none unless the document ends in a newline),
as jsdiff's line tokenizer does. -/
def linesKeepNL (s : String) : List String :=
  let ps := splitNL s
  match ps.reverse with
  | [] => []
  | last :: revInit =>
    let withNL := revInit.reverse.map (fun l => l ++ "\n")
    if last = "" then withNL else withNL ++ [last]

/-- One change object returned by the line differ: a run of common,
removed, or added lines (the value is the concatenation of the
line tokens of the run). -/
inductive DiffPart where
  | common (value : String)
  | removed (value : String)
  | added (value : String)
  deriving DecidableEq, Repr

/-- An elementary per-token edit. -/
inductive Edit where
  | keep (tok : String)
  | del (tok : String)
  | ins (tok : String)
  deriving DecidableEq, Repr

/-- Number of non-keep edits (the cost minimized by an LCS diff). -/
def editCost (es : List Edit) : Nat :=
  es.foldl (fun n e => match e with | .keep _ => n | _ => n + 1) 0

/-- Fuel-indexed minimal edit script between two token lists; on a tie
the deletion branch is preferred, so removals come before additions
within a change block, matching the differ's output convention. -/
def diffEditsFuel : Nat → List String → List String → List Edit
  | 0, _, _ => []
  | _ + 1, [], ys => ys.map .ins
  | _ + 1, x :: xs, [] => (x :: xs).map .del
  | fuel + 1, x :: xs, y :: ys =>
    if x = y then .keep x :: diffEditsFuel fuel xs ys
    else
      let dDel := diffEditsFuel fuel xs (y :: ys)
      let dIns := diffEditsFuel fuel (x :: xs) ys
      if editCost dDel ≤ editCost dIns then .del x :: dDel else .ins y :: dIns

/-- Minimal edit script between two token lists (enough fuel for the
recursion to run to completion). -/
def diffEdits (xs ys : List String) : List Edit :=
  diffEditsFuel (xs.length + ys.length + 1) xs ys

/-- Collect the maximal leading run of kept tokens. -/
def spanKeep : List Edit → (List String × List Edit)
  | .keep t :: rest =>
    let (ts, r) := spanKeep rest
    (t :: ts, r)
  | es => ([], es)

/-- Collect the maximal leading run of non-kept edits, separating
deleted and inserted tokens. -/
def spanChange : List Edit → (List String × List String × List Edit)
  | .del t :: rest =>
    let (ds, is', r) := spanChange rest
    (t :: ds, is', r)
  | .ins t :: rest =>
    let (ds, is', r) := spanChange rest
    (ds, t :: is', r)
  | es => ([], [], es)

/-- Group an edit script into change objects: common runs become one
part, and each change block becomes a removed part followed by an added
part (either possibly absent). -/
def groupEditsFuel : Nat → List Edit → List DiffPart
  | 0, _ => []
  | _ + 1, [] => []
  | fuel + 1, .keep t :: rest =>
    let (ts, r) := spanKeep rest
    .common (String.join (t :: ts)) :: groupEditsFuel fuel r
  | fuel + 1, es =>
    let (ds, is', r) := spanChange es
    (if ds.isEmpty then [] else [.removed (String.join ds)]) ++
      (if is'.isEmpty then [] else [.added (String.join is')]) ++
      groupEditsFuel fuel r

/-- Modelled from the spec: the standard line-granularity LCS differ
assumed as a library dependency (§1 non-goals; the source imports
`diffLines` from the `diff` npm package).  Same inputs always yield the
same part sequence; whitespace and trailing-newline differences are not
ignored; within a change block removed lines precede added lines. -/
def diffLinesModel (oldStr newStr : String) : List DiffPart :=
  let es := diffEdits (linesKeepNL oldStr) (linesKeepNL newStr)
  groupEditsFuel (es.length + 1) es

/-- `generateDiff` (commit-suggestion-service.ts lines 19-39): maps each
change object to its value prefixed with `+` for added parts and `-` for
removed parts, and joins everything with the empty separator. -/
def generateDiff (originalContent rewrittenContent : String) : String :=
  String.join ((diffLinesModel originalContent rewrittenContent).map
    (fun p =>
      match p with
      | .added v => "+" ++ v
      | .removed v => "-" ++ v
      | .common v => v))

/-! ## V1 chunk extraction (`diffToSuggestionChunksWithPositions`) -/

/-- A suggestion chunk with its computed line position. -/
structure Chunk where
  content : String
  lineNumber : Int
  deriving DecidableEq, Repr

/-- Fold digit characters into a number, as `parseInt` does on an
all-digit capture. -/
def digitsToNat (ds : List Char) : Nat :=
  ds.foldl (fun n c => n * 10 + (c.toNat - 48)) 0

/-- The hunk-header regex of the source,
matched against a line that starts with two at-signs; returns the
second capture (the `+` start line) when the pattern
`at at space minus digits [comma digits] space plus digits
[comma digits] space at at` matches from the start of the line. -/
def parseHunkHeader (line : String) : Option Nat :=
  match line.toList with
  | '@' :: '@' :: ' ' :: '-' :: rest =>
    let ds1 := rest.takeWhile Char.isDigit
    let r1 := rest.dropWhile Char.isDigit
    if ds1.isEmpty then none
    else
      let r2 := match r1 with
        | ',' :: t => t.dropWhile Char.isDigit
        | t => t
      match r2 with
      | ' ' :: '+' :: rest2 =>
        let ds2 := rest2.takeWhile Char.isDigit
        let r3 := rest2.dropWhile Char.isDigit
        if ds2.isEmpty then none
        else
          let r4 := match r3 with
            | ',' :: t => t.dropWhile Char.isDigit
            | t => t
          match r4 with
          | ' ' :: '@' :: '@' :: _ => some (digitsToNat ds2)
          | _ => none
      | _ => none
  | _ => none

/-- Loop state of `diffToSuggestionChunksWithPositions`. -/
structure ChunkState where
  chunks : List Chunk
  currentChunk : List String
  currentLineNumber : Int
  inChunk : Bool
  deriving Repr

/-- One iteration of the `for (const line of lines)` loop of
`diffToSuggestionChunksWithPositions` (lines 53-87). -/
def chunkStep (st : ChunkState) (line : String) : ChunkState :=
  if strStartsWith line "@@" then
    match parseHunkHeader line with
    | some n =>
      let cln : Int := (n : Int)
      if st.currentChunk.isEmpty then
        { st with currentLineNumber := cln, inChunk := false }
      else
        { chunks := st.chunks ++
            [⟨joinWithNL st.currentChunk,
              cln - (st.currentChunk.length : Int)⟩],
          currentChunk := [],
          currentLineNumber := cln,
          inChunk := false }
    | none => st
  else if strStartsWith line "+" && !(strStartsWith line "++") then
    { st with currentChunk := st.currentChunk ++ [strDrop1 line], inChunk := true }
  else if strStartsWith line "-" && !(strStartsWith line "--") then
    { st with currentLineNumber := st.currentLineNumber + 1 }
  else if strStartsWith line " " then
    if st.inChunk && !st.currentChunk.isEmpty then
      { chunks := st.chunks ++
          [⟨joinWithNL st.currentChunk,
            st.currentLineNumber - (st.currentChunk.length : Int)⟩],
        currentChunk := [],
        currentLineNumber := st.currentLineNumber + 1,
        inChunk := false }
    else
      { st with currentLineNumber := st.currentLineNumber + 1 }
  else
    st

/-- `diffToSuggestionChunksWithPositions` (commit-suggestion-service.ts
lines 44-98): split the diff on newlines, run the loop, and flush the
last pending chunk. -/
def diffToSuggestionChunksWithPositions (diff : String) : List Chunk :=
  let st := (splitNL diff).foldl chunkStep ⟨[], [], 1, false⟩
  if st.currentChunk.isEmpty then st.chunks
  else st.chunks ++
    [⟨joinWithNL st.currentChunk,
      st.currentLineNumber - (st.currentChunk.length : Int)⟩]

/-! ## Analysis results and local suggestion synthesis -/

/-- Outcome of `readFileContent(result.filePath)`: the promise resolves
with the content, or rejects (the file is unreadable). -/
inductive ReadOutcome where
  | ok (content : String)
  | raise (err : String)
  deriving DecidableEq, Repr

/-- An `AcrolinxAnalysisResult` together with the outcome of reading its
file from disk (scores and timestamp are not used by the suggestion
pipeline and are omitted). -/
structure ResultInput where
  filePath : String
  rewrite : String
  read : ReadOutcome
  deriving DecidableEq, Repr

/-- `CommitSuggestion` (types/index.ts). -/
structure CommitSuggestion where
  filePath : String
  originalContent : String
  rewrittenContent : String
  diff : String
  lineNumber : Int
  suggestion : String
  deriving DecidableEq, Repr

/-- Warning logged when the original content is falsy. -/
def couldNotReadMsg (fp : String) : String :=
  "Could not read original content for " ++ fp

/-- Warning logged by the per-result catch block. -/
def failedSuggestionMsg (fp err : String) : String :=
  "Failed to create suggestion for " ++ fp ++ ": " ++ err

namespace V1

/-- The body of the `for (const result of results)` loop of
`createCommitSuggestions` (lines 108-167 of the first variant),
including its catch: the pair is (suggestions pushed, warnings logged)
for this result. -/
def processResult (r : ResultInput) : List CommitSuggestion × List String :=
  match r.read with
  | .raise e => ([], [failedSuggestionMsg r.filePath e])
  | .ok c =>
    if c = "" then ([], [couldNotReadMsg r.filePath])
    else if r.rewrite = "" || jsTrim r.rewrite = jsTrim c then ([], [])
    else
      let diff := generateDiff c r.rewrite
      if jsTrim diff = "" then ([], [])
      else
        let chunks := diffToSuggestionChunksWithPositions diff
        if chunks.isEmpty then ([], [])
        else
          (chunks.map (fun ch =>
            ⟨r.filePath, c, r.rewrite, diff, ch.lineNumber, ch.content⟩), [])

/-- `createCommitSuggestions` (first variant, lines 103-170): loop over
all results, accumulating suggestions and warnings; always returns. -/
def createCommitSuggestions : List ResultInput → List CommitSuggestion × List String
  | [] => ([], [])
  | r :: rest =>
    let (s, w) := processResult r
    let (s', w') := createCommitSuggestions rest
    (s ++ s', w ++ w')

end V1

/-! ## Remote delivery: environment, operations, traces -/

/-- A review comment as returned by `pulls.listReviewComments`. -/
structure ReviewComment where
  id : Nat
  path : String
  body : String
  deriving DecidableEq, Repr

/-- A review as returned by `pulls.listReviews`, with its comments. -/
structure Review where
  id : Nat
  state : String
  submittedAt : Option Int
  userLogin : String
  comments : List ReviewComment
  deriving DecidableEq, Repr

/-- The remote state read by `createPRCommitSuggestions`: whether the
repository-access check fails with 403, the PR head sha, the existing
reviews, the current actor, and (for the second variant) the parsed PR
diff's added-lines map and the PR's changed files. -/
structure PREnv where
  permission403 : Bool
  headSha : String
  reviews : List Review
  actor : String
  addedLines : List (String × List Nat)
  prFiles : List String
  deriving DecidableEq, Repr

/-- `PRSuggestionData` (types/index.ts). -/
structure PRSuggestionData where
  owner : String
  repo : String
  prNumber : Nat
  suggestions : List CommitSuggestion
  eventType : String
  deriving DecidableEq, Repr

/-- A comment passed to `pulls.createReview`; the first variant anchors
by `position`, the second by `line`. -/
structure NewComment where
  path : String
  line : Option Int
  position : Option Int
  body : String
  deriving DecidableEq, Repr

/-- A remote operation issued against the host. -/
inductive Op where
  | repoGet
  | prGet
  | prGetDiff
  | listFiles
  | listReviews
  | listReviewComments (reviewId : Nat)
  | submitReview (reviewId : Nat) (event : String)
  | updateComment (commentId : Nat) (body : String)
  | createReview (comments : List NewComment)
  deriving DecidableEq, Repr

/-- Operations that create or update a review comment. -/
def Op.isCommentWrite : Op → Bool
  | .updateComment _ _ => true
  | .createReview _ => true
  | _ => false

/-- Operations that mutate any remote state (review submission
included). -/
def Op.isRemoteWrite : Op → Bool
  | .submitReview _ _ => true
  | .updateComment _ _ => true
  | .createReview _ => true
  | _ => false

/-- The observable outcome of one `createPRCommitSuggestions` run: the
ordered trace of remote operations, and the warning/error messages
logged. -/
structure RunOut where
  ops : List Op
  warnings : List String
  errors : List String
  deriving DecidableEq, Repr

/-- Total number of comment-create operations in a run (comments inside
`createReview` batches). -/
def countCreates (out : RunOut) : Nat :=
  (out.ops.map (fun op =>
    match op with
    | .createReview cs => cs.length
    | _ => 0)).foldl (· + ·) 0

/-- `findExistingPendingReview` (lines 175-202): filter the reviews for
`state === 'PENDING'` and take the most recent.  Pending reviews carry
no `submitted_at`, so every sort key is `NaN`, the sort leaves the order
unchanged, and the first pending review is returned; `pendingReview?.id
|| null` maps a zero id back to null. -/
def findExistingPendingReview (env : PREnv) : Option Nat :=
  match (env.reviews.filter (fun r => r.state = "PENDING")).head? with
  | some r => if r.id = 0 then none else some r.id
  | none => none

/-- The marker identifying a suggestion comment. -/
def suggestionMarker : String := "```suggestion"

/-- Association-list read used to model the JS `Map` (first match). -/
def mapLookup (m : List (String × Nat)) (k : String) : Option Nat :=
  match m with
  | [] => none
  | (k', v) :: rest => if k' = k then some v else mapLookup rest k

/-- Association-list write used to model `Map.set` (replace or append). -/
def mapSet (m : List (String × Nat)) (k : String) (v : Nat) : List (String × Nat) :=
  match m with
  | [] => [(k, v)]
  | (k', v') :: rest =>
    if k' = k then (k, v) :: rest else (k', v') :: mapSet rest k v

/-- Inner loop of `findExistingSuggestions` (lines 257-264): record the
id of each comment whose body contains a suggestion block and whose path
is among the given file paths. -/
def addComments (filePaths : List String) : List ReviewComment →
    List (String × Nat) → List (String × Nat)
  | [], m => m
  | c :: cs, m =>
    addComments filePaths cs
      (if stringIncludes c.body suggestionMarker && filePaths.contains c.path
       then mapSet m c.path c.id else m)

/-- Outer loop of `findExistingSuggestions` (lines 247-266): only
reviews authored by the current actor are inspected. -/
def addReviews (actor : String) (filePaths : List String) : List Review →
    List (String × Nat) → List (String × Nat)
  | [], m => m
  | r :: rs, m =>
    addReviews actor filePaths rs
      (if r.userLogin = actor then addComments filePaths r.comments m else m)

/-- `findExistingSuggestions` (lines 231-273). -/
def findExistingSuggestions (env : PREnv) (filePaths : List String) :
    List (String × Nat) :=
  addReviews env.actor filePaths env.reviews []

/-- The suggestion-separation loop of `createPRCommitSuggestions`
(lines 374-397): suggestions whose path has an existing suggestion
comment become updates `(commentId, suggestionText)`; the rest become
new suggestions, order preserved. -/
def partitionSuggestions (existing : List (String × Nat)) :
    List CommitSuggestion → List (Nat × String) × List CommitSuggestion
  | [] => ([], [])
  | s :: rest =>
    match mapLookup existing s.filePath with
    | some cid =>
      ((cid, s.suggestion) :: (partitionSuggestions existing rest).1,
        (partitionSuggestions existing rest).2)
    | none =>
      ((partitionSuggestions existing rest).1,
        s :: (partitionSuggestions existing rest).2)

/-- The `suggestion` fenced block used for update and V1 create bodies. -/
def suggestionBody (s : String) : String :=
  "```suggestion\n" ++ s ++ "\n```"

/-- Error logged when the repository-access check fails with 403
(line 326). -/
def permissionDeniedRepoMsg : String :=
  "❌ Permission denied: Cannot access repository. Make sure the GitHub token has \"pull-requests: write\" permission."

/-- The `submitPendingReview` step (lines 343-358): submit the found
pending review with a plain `COMMENT` event, or do nothing. -/
def pendingReviewOps (env : PREnv) : List Op :=
  match findExistingPendingReview env with
  | some rid => [.submitReview rid "COMMENT"]
  | none => []

/-- The per-review `listReviewComments` calls made by
`findExistingSuggestions` for reviews authored by the actor. -/
def commentListOps (env : PREnv) : List Op :=
  (env.reviews.filter (fun r => r.userLogin = env.actor)).map
    (fun r => Op.listReviewComments r.id)

namespace V1

/-- The existing-suggestion map computed by the first variant's
`createPRCommitSuggestions` (lines 360-368). -/
def existingOf (env : PREnv) (d : PRSuggestionData) : List (String × Nat) :=
  findExistingSuggestions env (d.suggestions.map (fun s => s.filePath))

/-- The scheduled comment updates (lines 377-391). -/
def updateOps (env : PREnv) (d : PRSuggestionData) : List Op :=
  ((partitionSuggestions (existingOf env d) d.suggestions).1).map
    (fun u => Op.updateComment u.1 (suggestionBody u.2))

/-- The suggestions without an existing comment (lines 392-396). -/
def newSuggestions (env : PREnv) (d : PRSuggestionData) : List CommitSuggestion :=
  (partitionSuggestions (existingOf env d) d.suggestions).2

/-- The create-review call batching all new suggestions, each anchored
at position 1 (lines 406-428); absent when there are none. -/
def createOps (env : PREnv) (d : PRSuggestionData) : List Op :=
  if (newSuggestions env d).isEmpty then []
  else
    [Op.createReview ((newSuggestions env d).map (fun s =>
      ⟨s.filePath, none, some 1, suggestionBody s.suggestion⟩))]

/-- `createPRCommitSuggestions` (first variant, lines 305-462) as a
trace function: the ordered remote operations it issues and the
warnings/errors it logs, given the remote responses in `env`. -/
def run (env : PREnv) (d : PRSuggestionData) : RunOut :=
  if d.suggestions.length = 0 then ⟨[], [], []⟩
  else if env.permission403 then ⟨[.repoGet], [], [permissionDeniedRepoMsg]⟩
  else
    ⟨[.repoGet, .prGet, .listReviews] ++ pendingReviewOps env ++
      [.listReviews] ++ commentListOps env ++ updateOps env d ++
      createOps env d, [], []⟩

end V1

namespace V2

/-- Loop state of `diffToSuggestions` (second variant, lines 513-546). -/
structure SuggState where
  suggestions : List String
  currentSuggestion : List String
  inAddition : Bool
  deriving Repr

/-- One iteration of the `diffToSuggestions` loop. -/
def suggStep (st : SuggState) (line : String) : SuggState :=
  if strStartsWith line "+" && !(strStartsWith line "++") then
    let st' :=
      if !st.inAddition then
        { st with inAddition := true, currentSuggestion := [] }
      else st
    { st' with currentSuggestion := st'.currentSuggestion ++ [strDrop1 line] }
  else if strStartsWith line "-" && !(strStartsWith line "--") then
    st
  else if strStartsWith line "@" || strStartsWith line " " then
    if st.inAddition && !st.currentSuggestion.isEmpty then
      { suggestions := st.suggestions ++ [joinWithNL st.currentSuggestion],
        currentSuggestion := [],
        inAddition := false }
    else st
  else st

/-- `diffToSuggestions` (second variant, lines 513-546). -/
def diffToSuggestions (diff : String) : List String :=
  let st := (splitNL diff).foldl suggStep ⟨[], [], false⟩
  if st.inAddition && !st.currentSuggestion.isEmpty then
    st.suggestions ++ [joinWithNL st.currentSuggestion]
  else st.suggestions

/-- The index walk of `findSuggestionLineNumbers` (lines 551-584): both
documents are traversed in lockstep; a one-based line number is recorded
at the start of each maximal run of differing lines. -/
def findChangeStarts : Nat → Bool → List String → List String → List Nat
  | _, _, [], _ => []
  | _, _, _ :: _, [] => []
  | i, inChange, o :: os, r :: rs =>
    if o = r then findChangeStarts (i + 1) false os rs
    else if inChange then findChangeStarts (i + 1) true os rs
    else (i + 1) :: findChangeStarts (i + 1) true os rs

/-- `findSuggestionLineNumbers` (second variant, lines 551-584). -/
def findSuggestionLineNumbers (originalContent rewrittenContent : String) :
    List Nat :=
  let ol := splitNL originalContent
  let nums := findChangeStarts 0 false ol (splitNL rewrittenContent)
  if nums.isEmpty then [ol.length + 1] else nums

/-- Read of the JS `Map<string, number[]>` of PR changed lines. -/
def linesLookup (m : List (String × List Nat)) (k : String) :
    Option (List Nat) :=
  match m with
  | [] => none
  | (k', v) :: rest => if k' = k then some v else linesLookup rest k

/-- Loop body of the second variant's `createCommitSuggestions`
(lines 644-758).  When the map of PR changed lines knows the file, a
suggestion is built per changed line from the rewritten document;
otherwise the diff-based fallback runs.  Indexing `lineNumbers[i]` past
the end yields `undefined` in JS; it is modelled as 0 (the fallback only
pairs indices produced from the same traversal in the runs relevant
here). -/
def processResult (prChangedLines : Option (List (String × List Nat)))
    (r : ResultInput) : List CommitSuggestion × List String :=
  match r.read with
  | .raise e => ([], [failedSuggestionMsg r.filePath e])
  | .ok c =>
    if c = "" then ([], [couldNotReadMsg r.filePath])
    else if r.rewrite = "" || jsTrim r.rewrite = jsTrim c then ([], [])
    else
      match prChangedLines.bind (fun m => linesLookup m r.filePath) with
      | some changedLines =>
        let ol := splitNL c
        let rl := splitNL r.rewrite
        (changedLines.filterMap (fun ln =>
          if ln ≤ ol.length && ln ≤ rl.length then
            let o := ol.getD (ln - 1) ""
            let w := rl.getD (ln - 1) ""
            if o ≠ w then
              some ⟨r.filePath, c, r.rewrite,
                "- " ++ o ++ "\n+ " ++ w, (ln : Int), w⟩
            else none
          else none), [])
      | none =>
        let diff := generateDiff c r.rewrite
        if jsTrim diff = "" then ([], [])
        else
          let iss := diffToSuggestions diff
          if iss.length = 0 then ([], [])
          else
            let nums := findSuggestionLineNumbers c r.rewrite
            ((List.range iss.length).map (fun i =>
              ⟨r.filePath, c, r.rewrite, diff,
                ((nums.getD i 0 : Nat) : Int), iss.getD i ""⟩), [])

/-- `createCommitSuggestions` (second variant, lines 638-762). -/
def createCommitSuggestions (results : List ResultInput)
    (prChangedLines : Option (List (String × List Nat))) :
    List CommitSuggestion × List String :=
  match results with
  | [] => ([], [])
  | r :: rest =>
    let (s, w) := processResult prChangedLines r
    let (s', w') := createCommitSuggestions rest prChangedLines
    (s ++ s', w ++ w')

/-- The warning logged by the comment cap (line 962). -/
def tooManySuggestionsMsg (n : Nat) : String :=
  "⚠️ Too many suggestions (" ++ toString n ++
    "). Limiting to first 100 suggestions."

/-- The comment body of the second variant (line 956). -/
def acrolinxSuggestionBody (s : String) : String :=
  "**Acrolinx Suggestion**\n\n```suggestion\n" ++ s ++
    "\n```\n\nThis suggestion was automatically generated by the Acrolinx Analyzer."

/-- GitHub API limit on comments per review (line 960). -/
def maxComments : Nat := 100

/-- `createPRCommitSuggestions` (second variant, lines 824-1009) as a
trace function.  Note line 903-906: the suggestions re-synthesis is
invoked as `createCommitSuggestions([], addedLinesMap)` — with an empty
results array. -/
def run (env : PREnv) (d : PRSuggestionData) : RunOut :=
  if d.suggestions.length = 0 then ⟨[], [], []⟩
  else if env.permission403 then ⟨[.repoGet], [], [permissionDeniedRepoMsg]⟩
  else
    let baseOps := [Op.repoGet, Op.prGet, Op.listReviews] ++
      pendingReviewOps env ++ [Op.prGetDiff, Op.listFiles]
    let suggestionsForChangedLines :=
      (createCommitSuggestions [] (some env.addedLines)).1
    if suggestionsForChangedLines.length = 0 then ⟨baseOps, [], []⟩
    else
      let comments := suggestionsForChangedLines.map (fun s =>
        NewComment.mk s.filePath (some s.lineNumber) none
          (acrolinxSuggestionBody s.suggestion))
      let truncated :=
        if comments.length > maxComments then comments.take maxComments
        else comments
      let warns :=
        if comments.length > maxComments then
          [tooManySuggestionsMsg comments.length]
        else []
      if truncated.length = 0 then ⟨baseOps, warns, []⟩
      else ⟨baseOps ++ [Op.createReview truncated], warns, []⟩

end V2

/-! ## Rewrite branch service (`unnamed/part_001`) -/

namespace Rewrite

/-- An `AcrolinxRewriteResult`: file path and rewritten content. -/
structure RewriteResult where
  filePath : String
  rewrittenContent : String
  deriving DecidableEq, Repr

/-- The GitHub Actions context fields relevant to the rewrite service.
`headRef` is `github.context.payload.pull_request?.head.ref`; `baseRef`
is the change request's base/target ref, which the service never
reads. -/
structure Ctx where
  prNumber : Nat
  sha : String
  headRef : Option String
  baseRef : String
  deriving DecidableEq, Repr

/-- An open pull request on the host. -/
structure PullReq where
  head : String
  base : String
  url : String
  deriving DecidableEq, Repr

/-- The remote repository state touched by the rewrite pipeline:
branches (name, head commit sha), open pull requests, and a counter
supplying fresh PR urls. -/
structure GState where
  branches : List (String × String)
  prs : List PullReq
  prCounter : Nat
  deriving DecidableEq, Repr

/-- A remote operation of the rewrite pipeline. -/
inductive GOp where
  | getBranch (name : String)
  | createRef (name sha : String)
  | updateRef (name sha : String)
  | getContent (path branch : String)
  | putContent (path branch : String)
  | listPulls (head : String)
  | createPull (head base : String)
  deriving DecidableEq, Repr

/-- Line 41: the consistent branch name, generated without commit SHA
to allow reuse. -/
def branchName (prNumber : Nat) : String :=
  "acrolinx-rewrite-" ++ toString prNumber

/-- Branch lookup by name. -/
def lookupBranch (m : List (String × String)) (k : String) : Option String :=
  match m with
  | [] => none
  | (k', v) :: rest => if k' = k then some v else lookupBranch rest k

/-- Point an existing branch at a new sha. -/
def setBranch (m : List (String × String)) (k v : String) :
    List (String × String) :=
  m.map (fun p => if p.1 = k then (k, v) else p)

/-- The sha of the commit created by `createOrUpdateFileContents` for
one file on top of the branch's previous head. -/
def mkCommitSha (path oldSha : String) : String :=
  "commit(" ++ path ++ "," ++ oldSha ++ ")"

/-- `applyRewrittenFiles` (lines 178-230): for each rewritten file, read
its current blob, then create-or-update it on the branch, each write
committing on top of the branch head. -/
def applyFiles (bn : String) : List RewriteResult → GState →
    GState × List GOp
  | [], s => (s, [])
  | f :: fs, s =>
    let old := (lookupBranch s.branches bn).getD ""
    let s' := { s with branches := setBranch s.branches bn (mkCommitSha f.filePath old) }
    let (s'', ops) := applyFiles bn fs s'
    (s'', [GOp.getContent f.filePath bn, GOp.putContent f.filePath bn] ++ ops)

/-- `RewriteBranchData` (lines 17-22). -/
structure RewriteBranchData where
  branchName : String
  prNumber : Nat
  commitSha : String
  rewrittenFiles : List RewriteResult
  deriving DecidableEq, Repr

/-- `createRewriteBranch` (lines 27-105): check for the branch by its
deterministic name, run the rewrites (their results are `files`), then
create the branch from the head branch when absent or reset it to the
head branch when present, and apply the rewritten files.  A missing head
branch makes `getBranch` throw, which the catch turns into `null`. -/
def createRewriteBranch (ctx : Ctx) (files : List RewriteResult)
    (s : GState) : GState × List GOp × Option RewriteBranchData :=
  let headBranch := ctx.headRef.getD "main"
  let bn := branchName ctx.prNumber
  let branchExists := (lookupBranch s.branches bn).isSome
  if files.isEmpty then (s, [GOp.getBranch bn], none)
  else
    match lookupBranch s.branches headBranch with
    | none => (s, [GOp.getBranch bn, GOp.getBranch headBranch], none)
    | some headSha =>
      let (s1, refOps) :=
        if !branchExists then
          ({ s with branches := s.branches ++ [(bn, headSha)] },
            [GOp.getBranch headBranch, GOp.createRef bn headSha])
        else
          ({ s with branches := setBranch s.branches bn headSha },
            [GOp.getBranch headBranch, GOp.updateRef bn headSha])
      let (s2, fileOps) := applyFiles bn files s1
      (s2, [GOp.getBranch bn] ++ refOps ++ fileOps,
        some ⟨bn, ctx.prNumber, ctx.sha, files⟩)

/-- Fresh url assigned by the host to the `n`-th created pull request. -/
def prUrl (n : Nat) : String :=
  "https://github.example/pull/" ++ toString n

/-- `createRewritePullRequest` (lines 255-293): look up an open PR whose
head is the rewrite branch and return its url unchanged, else create one
targeting the change request's head branch. -/
def createRewritePullRequest (ctx : Ctx) (data : RewriteBranchData)
    (s : GState) : GState × List GOp × Option String :=
  let targetBranch := ctx.headRef.getD "main"
  match (s.prs.filter (fun p => p.head = data.branchName)).head? with
  | some p => (s, [GOp.listPulls data.branchName], some p.url)
  | none =>
    let url := prUrl s.prCounter
    ({ s with
        prs := s.prs ++ [⟨data.branchName, targetBranch, url⟩],
        prCounter := s.prCounter + 1 },
      [GOp.listPulls data.branchName,
        GOp.createPull data.branchName targetBranch], some url)

/-- The rewrite-branch pipeline for one run: `createRewriteBranch`
followed (on success) by `createRewritePullRequest`. -/
def rewriteFlow (ctx : Ctx) (files : List RewriteResult) (s : GState) :
    GState × List GOp × Option String :=
  match createRewriteBranch ctx files s with
  | (s1, ops1, none) => (s1, ops1, none)
  | (s1, ops1, some data) =>
    let (s2, ops2, url) := createRewritePullRequest ctx data s1
    (s2, ops1 ++ ops2, url)

end Rewrite

/-! ## Branch retention sweeper (`cleanupOldRewriteBranches`) -/

namespace Sweep

/-- A branch with the timestamp (ms) of its most recent commit; `none`
models a missing/unparsable `author.date` (whose `Date` is `NaN`). -/
structure BranchInfo where
  name : String
  commitDate : Option Int
  deriving DecidableEq, Repr

/-- Milliseconds per day. -/
def msPerDay : Int := 86400000

/-- `commitDate < cutoffDate` where `cutoffDate` is `now` minus
`maxAgeDays` days; a `NaN` commit date compares false. -/
def isOlder (now maxAgeDays : Int) (b : BranchInfo) : Bool :=
  match b.commitDate with
  | some d => d < now - maxAgeDays * msPerDay
  | none => false

/-- Warning logged when a single branch deletion fails (line 367). -/
def deleteFailedMsg (n : String) : String :=
  "Failed to delete branch " ++ n

/-- The `for (const branch of rewriteBranches)` loop (lines 350-370):
for each old branch, attempt deletion; a failure logs a warning and the
loop continues.  Returns (attempted deletions, successful deletions,
warnings). -/
def sweepLoop (now maxAgeDays : Int) (deleteOk : String → Bool) :
    List BranchInfo → List String × List String × List String
  | [] => ([], [], [])
  | b :: bs =>
    let (att, del, warns) := sweepLoop now maxAgeDays deleteOk bs
    if isOlder now maxAgeDays b then
      if deleteOk b.name then (b.name :: att, b.name :: del, warns)
      else (b.name :: att, del, deleteFailedMsg b.name :: warns)
    else (att, del, warns)

/-- `cleanupOldRewriteBranches` (lines 332-374): filter the branch list
by the rewrite naming convention, then sweep. -/
def cleanupOldRewriteBranches (branches : List BranchInfo) (now : Int)
    (deleteOk : String → Bool) (maxAgeDays : Int) :
    List String × List String × List String :=
  sweepLoop now maxAgeDays deleteOk
    (branches.filter (fun b => strStartsWith b.name "acrolinx-rewrite-"))

/-- The sweeper at its default retention window of 7 days. -/
def cleanupDefault (branches : List BranchInfo) (now : Int)
    (deleteOk : String → Bool) : List String × List String × List String :=
  cleanupOldRewriteBranches branches now deleteOk 7

end Sweep

/-! ## Concrete sample inputs used by witness theorems -/

/-- A sample suggestion record. -/
def sampleSuggestion : CommitSuggestion :=
  ⟨"docs/a.md", "old text", "new text", "-old text\n+new text", 1, "new text"⟩

/-- Delivery environment: permission granted, no reviews. -/
def sampleEnvNoReviews : PREnv :=
  ⟨false, "headsha", [], "acrolinx-bot", [], []⟩

/-- Delivery environment with one pending review (id 7). -/
def sampleEnvPending : PREnv :=
  ⟨false, "headsha", [⟨7, "PENDING", none, "acrolinx-bot", []⟩],
    "acrolinx-bot", [], []⟩

/-- Delivery environment with a submitted review by the actor carrying a
suggestion comment (id 42) on `docs/a.md`. -/
def sampleEnvExisting : PREnv :=
  ⟨false, "headsha",
    [⟨9, "COMMENTED", some 5, "acrolinx-bot",
      [⟨42, "docs/a.md", "```suggestion\nnew text\n```"⟩]⟩],
    "acrolinx-bot", [], []⟩

/-- Delivery environment where the repository check fails with 403. -/
def sampleEnv403 : PREnv :=
  ⟨true, "headsha", [], "acrolinx-bot", [], []⟩

/-- Suggestion data for PR 5 with the given suggestions. -/
def sampleData (suggs : List CommitSuggestion) : PRSuggestionData :=
  ⟨"owner", "repo", 5, suggs, "pull_request"⟩

/-- Rewrite context: PR 5, head ref `feature`, base ref `main`. -/
def sampleCtx : Rewrite.Ctx :=
  ⟨5, "abc123", some "feature", "main"⟩

/-- One rewritten file. -/
def sampleFiles : List Rewrite.RewriteResult :=
  [⟨"docs/a.md", "new text"⟩]

/-- Remote state where the rewrite branch for PR 5 already exists. -/
def sampleStateWithBranch : Rewrite.GState :=
  ⟨[("feature", "f1"), ("acrolinx-rewrite-5", "r1")], [], 0⟩

/-- Remote state where the rewrite branch for PR 5 is absent. -/
def sampleStateNoBranch : Rewrite.GState :=
  ⟨[("feature", "f1")], [], 0⟩

/-- The retention scenario: rewrite branches aged 10 and 2 days and a
`main` branch aged 0 days, at a fixed `now`. -/
def sampleBranches : List Sweep.BranchInfo :=
  [⟨"acrolinx-rewrite-1", some (1000000000000 - 10 * Sweep.msPerDay)⟩,
   ⟨"acrolinx-rewrite-2", some (1000000000000 - 2 * Sweep.msPerDay)⟩,
   ⟨"main", some 1000000000000⟩]

/-! ## Claim theorems -/

/-- Claim C1 (code_bug evaluation).  The claim states that for original
`"line1\nline2\nline3"` and rewritten `"line1\nNEW\nline3"` the
synthesizer yields exactly one suggestion with `lineNumber = 2` and text
`"NEW"`, with context and added lines advancing the position counter.
The embedded code yields exactly one chunk with text `"NEW"` but
`lineNumber = 1`: `generateDiff` emits the differ's block format (no
`@@ ` headers and no space-prefixed context lines), so the chunk
parser's counter advances only on `-`-prefixed lines and the computed
position is wrong. -/
theorem c1_scenario_code_eval :
    generateDiff "line1\nline2\nline3" "line1\nNEW\nline3" =
      "line1\n-line2\n+NEW\nline3" ∧
    diffToSuggestionChunksWithPositions
        (generateDiff "line1\nline2\nline3" "line1\nNEW\nline3") =
      [⟨"NEW", 1⟩] := by
  exact ⟨by decide, by decide⟩

/-- Claim C4: in every run of `createPRCommitSuggestions` where a
pending review from a prior run is found, that review is submitted with
a plain `COMMENT` event strictly before any review comment is created or
updated in the same run: the trace decomposes as a prefix free of
comment writes, then the submission, then the rest. -/
theorem c4_pending_review_submitted_first (env : PREnv)
    (d : PRSuggestionData) (hne : d.suggestions ≠ [])
    (hperm : env.permission403 = false) (rid : Nat)
    (hp : findExistingPendingReview env = some rid) :
    ∃ pre post,
      (V1.run env d).ops = pre ++ Op.submitReview rid "COMMENT" :: post ∧
      ∀ op ∈ pre, op.isCommentWrite = false := by
  have h0 : ¬ d.suggestions.length = 0 := by
    simpa [List.length_eq_zero] using hne
  refine ⟨[.repoGet, .prGet, .listReviews],
    [.listReviews] ++ commentListOps env ++ V1.updateOps env d ++
      V1.createOps env d, ?_, ?_⟩
  · simp [V1.run, h0, hperm, pendingReviewOps, hp]
  · intro op hop
    fin_cases hop <;> rfl

/-- Witness for C4: in the pending-review environment with one
suggestion, the trace contains the submission of review 7 after a
write-free prefix. -/
theorem c4_pending_review_submitted_first_witness :
    ∃ pre post,
      (V1.run sampleEnvPending (sampleData [sampleSuggestion])).ops =
        pre ++ Op.submitReview 7 "COMMENT" :: post ∧
      ∀ op ∈ pre, op.isCommentWrite = false :=
  c4_pending_review_submitted_first sampleEnvPending
    (sampleData [sampleSuggestion]) (by decide) rfl 7 rfl

/-- Claim C5: if the repository write-access check fails with a 403
authorization error, `createPRCommitSuggestions` aborts after the single
read that failed, logs the actionable permission message, and performs
no remote write at all. -/
theorem c5_permission_denied_aborts (env : PREnv) (d : PRSuggestionData)
    (hne : d.suggestions ≠ []) (hperm : env.permission403 = true) :
    (V1.run env d).ops = [Op.repoGet] ∧
    (V1.run env d).errors = [permissionDeniedRepoMsg] ∧
    ∀ op ∈ (V1.run env d).ops, op.isRemoteWrite = false := by
  have h0 : ¬ d.suggestions.length = 0 := by
    simpa [List.length_eq_zero] using hne
  refine ⟨?_, ?_, ?_⟩
  · simp [V1.run, h0, hperm]
  · simp [V1.run, h0, hperm]
  · intro op hop
    simp [V1.run, h0, hperm] at hop
    subst hop
    rfl

/-- Witness for C5: the 403 environment with one suggestion stops after
the repository read and logs the permission error. -/
theorem c5_permission_denied_aborts_witness :
    (V1.run sampleEnv403 (sampleData [sampleSuggestion])).ops =
        [Op.repoGet] ∧
    (V1.run sampleEnv403 (sampleData [sampleSuggestion])).errors =
        [permissionDeniedRepoMsg] ∧
    ∀ op ∈ (V1.run sampleEnv403 (sampleData [sampleSuggestion])).ops,
      op.isRemoteWrite = false :=
  c5_permission_denied_aborts sampleEnv403 (sampleData [sampleSuggestion])
    (by decide) rfl

set_option maxRecDepth 100000 in
/-- Claim C3 (code_bug evaluation).  The claim states that the delivery
step never emits more than 100 comment-create operations in one review
batch and that any excess is dropped with a logged warning.  In the
embedded code, the first variant batches every new suggestion into a
single `createReview` call with no cap: 150 fresh suggestions produce
150 comment creates and no warning.  The second variant contains the
100-comment cap with its warning (lines 959-973), but that code is
unreachable: `createCommitSuggestions` is invoked with an empty results
array (line 904), so the run never issues a `createReview` at all. -/
theorem c3_delivery_cap_code_eval :
    countCreates (V1.run sampleEnvNoReviews
        (sampleData (List.replicate 150 sampleSuggestion))) = 150 ∧
    (V1.run sampleEnvNoReviews
        (sampleData (List.replicate 150 sampleSuggestion))).warnings = [] ∧
    ∀ env d, countCreates (V2.run env d) = 0 := by
  refine ⟨by decide, by decide, ?_⟩
  intro env d
  by_cases h1 : d.suggestions.length = 0
  · simp [V2.run, h1, countCreates]
  · cases hperm : env.permission403 with
    | false =>
      have hrun : V2.run env d =
          ⟨[Op.repoGet, Op.prGet, Op.listReviews] ++ pendingReviewOps env ++
            [Op.prGetDiff, Op.listFiles], [], []⟩ := by
        simp [V2.run, h1, hperm, V2.createCommitSuggestions]
      rw [hrun]
      cases hp : findExistingPendingReview env <;>
        simp [pendingReviewOps, hp, countCreates]
    | true => simp [V2.run, h1, hperm, countCreates]

/-- Splitting `createCommitSuggestions` over list append. -/
theorem createCommitSuggestions_split (xs ys : List ResultInput) :
    V1.createCommitSuggestions (xs ++ ys) =
      ((V1.createCommitSuggestions xs).1 ++ (V1.createCommitSuggestions ys).1,
       (V1.createCommitSuggestions xs).2 ++ (V1.createCommitSuggestions ys).2) := by
  induction xs with
  | nil => simp [V1.createCommitSuggestions]
  | cons r rs ih => simp [V1.createCommitSuggestions, ih]

/-- Claim C6: a result whose original and rewritten contents agree after
whitespace trimming contributes zero suggestions, so a run in which
every file is trim-equal synthesizes an empty suggestion list, and the
delivery step issues zero remote operations for it. -/
theorem c6_trim_equal_no_suggestions_no_calls
    (results : List ResultInput)
    (h : ∀ r ∈ results, ∀ c, r.read = .ok c → jsTrim r.rewrite = jsTrim c)
    (env : PREnv) (d : PRSuggestionData)
    (hd : d.suggestions = (V1.createCommitSuggestions results).1) :
    (V1.createCommitSuggestions results).1 = [] ∧ (V1.run env d).ops = [] := by
  have key : ∀ rs : List ResultInput,
      (∀ r ∈ rs, ∀ c, r.read = .ok c → jsTrim r.rewrite = jsTrim c) →
      (V1.createCommitSuggestions rs).1 = [] := by
    intro rs
    induction rs with
    | nil => intro _; rfl
    | cons r rs ih =>
      intro hall
      have hr : (V1.processResult r).1 = [] := by
        cases hread : r.read with
        | raise e => simp [V1.processResult, hread]
        | ok c =>
          have htr := hall r (List.mem_cons_self r rs) c hread
          by_cases hc : c = ""
          · simp [V1.processResult, hread, hc]
          · simp [V1.processResult, hread, hc, htr]
      have htail := ih (fun r' hm => hall r' (List.mem_cons_of_mem r hm))
      show (V1.processResult r).1 ++ (V1.createCommitSuggestions rs).1 = []
      rw [hr, htail]
      rfl
  have hkey := key results h
  refine ⟨hkey, ?_⟩
  have hlen : d.suggestions.length = 0 := by rw [hd, hkey]; rfl
  simp [V1.run, hlen]

/-- Witness for C6: a single trim-equal result produces no suggestions
and an op-free delivery run. -/
theorem c6_trim_equal_no_suggestions_no_calls_witness :
    (V1.createCommitSuggestions [⟨"docs/a.md", "  hello  ", .ok "hello"⟩]).1 = [] ∧
    (V1.run sampleEnvNoReviews
      (sampleData
        (V1.createCommitSuggestions
          [⟨"docs/a.md", "  hello  ", .ok "hello"⟩]).1)).ops = [] :=
  c6_trim_equal_no_suggestions_no_calls
    [⟨"docs/a.md", "  hello  ", .ok "hello"⟩]
    (by
      intro r hr c hc
      simp only [List.mem_singleton] at hr
      subst hr
      cases hc
      decide)
    sampleEnvNoReviews
    (sampleData
      (V1.createCommitSuggestions
        [⟨"docs/a.md", "  hello  ", .ok "hello"⟩]).1)
    rfl

/-- Claim C10: `createCommitSuggestions` isolates per-file failures: a
result whose file read rejects contributes no suggestions but a logged
warning, the remaining results are still processed, and the returned
suggestions are exactly those of the non-failing results. -/
theorem c10_per_file_failure_isolation (xs ys : List ResultInput)
    (bad : ResultInput) (e : String) (h : bad.read = .raise e) :
    (V1.createCommitSuggestions (xs ++ bad :: ys)).1 =
      (V1.createCommitSuggestions xs).1 ++ (V1.createCommitSuggestions ys).1 ∧
    failedSuggestionMsg bad.filePath e ∈
      (V1.createCommitSuggestions (xs ++ bad :: ys)).2 := by
  have hb : V1.processResult bad = ([], [failedSuggestionMsg bad.filePath e]) := by
    simp [V1.processResult, h]
  have hcons : V1.createCommitSuggestions (bad :: ys) =
      ([] ++ (V1.createCommitSuggestions ys).1,
       [failedSuggestionMsg bad.filePath e] ++ (V1.createCommitSuggestions ys).2) := by
    show ((V1.processResult bad).1 ++ (V1.createCommitSuggestions ys).1,
      (V1.processResult bad).2 ++ (V1.createCommitSuggestions ys).2) = _
    rw [hb]
  constructor
  · rw [createCommitSuggestions_split, hcons]
    rfl
  · rw [createCommitSuggestions_split, hcons]
    simp

/-- Witness for C10: a single rejecting read yields no suggestions and
the corresponding warning. -/
theorem c10_per_file_failure_isolation_witness :
    (V1.createCommitSuggestions
        ([] ++ ⟨"bad.md", "x", .raise "EACCES"⟩ :: [])).1 =
      (V1.createCommitSuggestions []).1 ++ (V1.createCommitSuggestions []).1 ∧
    failedSuggestionMsg "bad.md" "EACCES" ∈
      (V1.createCommitSuggestions
        ([] ++ ⟨"bad.md", "x", .raise "EACCES"⟩ :: [])).2 :=
  c10_per_file_failure_isolation [] [] ⟨"bad.md", "x", .raise "EACCES"⟩
    "EACCES" rfl

/-- A member of a string list is found by `contains`. -/
theorem contains_of_mem {l : List String} {a : String} (h : a ∈ l) :
    l.contains a = true := by
  simpa using h

/-- Setting a key makes its lookup succeed. -/
theorem mapLookup_set_self (m : List (String × Nat)) (k : String)
    (v : Nat) : mapLookup (mapSet m k v) k = some v := by
  induction m with
  | nil => simp [mapSet, mapLookup]
  | cons p rest ih =>
    obtain ⟨k', v'⟩ := p
    by_cases hk : k' = k
    · simp [mapSet, hk, mapLookup]
    · simp [mapSet, hk, mapLookup, ih]

/-- Setting a key preserves the success of any lookup. -/
theorem mapLookup_set_isSome (m : List (String × Nat)) (k : String)
    (v : Nat) (p : String) (h : (mapLookup m p).isSome = true) :
    (mapLookup (mapSet m k v) p).isSome = true := by
  induction m with
  | nil => simp [mapLookup] at h
  | cons q rest ih =>
    obtain ⟨k', v'⟩ := q
    by_cases hk : k' = k
    · subst hk
      by_cases hp : k' = p
      · subst hp
        simp [mapSet, mapLookup]
      · have hset : mapSet ((k', v') :: rest) k' v = (k', v) :: rest := by
          simp [mapSet]
        rw [hset]
        have h' : (mapLookup rest p).isSome = true := by
          simpa [mapLookup, hp] using h
        simpa [mapLookup, hp] using h'
    · have hset : mapSet ((k', v') :: rest) k v =
          (k', v') :: mapSet rest k v := by
        simp [mapSet, hk]
      rw [hset]
      by_cases hp : k' = p
      · subst hp
        simp [mapLookup]
      · have h' : (mapLookup rest p).isSome = true := by
          simpa [mapLookup, hp] using h
        simpa [mapLookup, hp] using ih h'

/-- `addComments` preserves the success of any lookup. -/
theorem addComments_isSome_mono (fps : List String)
    (cs : List ReviewComment) (m : List (String × Nat)) (p : String)
    (h : (mapLookup m p).isSome = true) :
    (mapLookup (addComments fps cs m) p).isSome = true := by
  induction cs generalizing m with
  | nil => simpa [addComments] using h
  | cons c cs ih =>
    simp only [addComments]
    apply ih
    by_cases hq :
        (stringIncludes c.body suggestionMarker && fps.contains c.path) = true
    · rw [if_pos hq]
      exact mapLookup_set_isSome _ _ _ _ h
    · rw [if_neg hq]
      exact h

/-- A qualifying comment in the list makes the lookup of its path
succeed after `addComments`. -/
theorem addComments_hit (fps : List String) (cs : List ReviewComment)
    (m : List (String × Nat)) (c : ReviewComment)
    (hq : stringIncludes c.body suggestionMarker = true)
    (hp : fps.contains c.path = true) :
    c ∈ cs → (mapLookup (addComments fps cs m) c.path).isSome = true := by
  induction cs generalizing m with
  | nil => intro hc; cases hc
  | cons d ds ih =>
    intro hc
    rcases List.mem_cons.mp hc with heq | hmem
    · subst heq
      simp only [addComments, hq, hp, Bool.and_self]
      exact addComments_isSome_mono _ _ _ _
        (by simp [mapLookup_set_self])
    · simp only [addComments]
      exact ih _ hmem

/-- `addReviews` preserves the success of any lookup. -/
theorem addReviews_isSome_mono (actor : String) (fps : List String)
    (rs : List Review) (m : List (String × Nat)) (p : String)
    (h : (mapLookup m p).isSome = true) :
    (mapLookup (addReviews actor fps rs m) p).isSome = true := by
  induction rs generalizing m with
  | nil => simpa [addReviews] using h
  | cons r rs ih =>
    simp only [addReviews]
    apply ih
    by_cases ha : r.userLogin = actor
    · rw [if_pos ha]
      exact addComments_isSome_mono _ _ _ _ h
    · rw [if_neg ha]
      exact h

/-- A qualifying comment inside an actor-authored review makes the
lookup of its path succeed after `addReviews`. -/
theorem addReviews_hit (actor : String) (fps : List String)
    (rs : List Review) (m : List (String × Nat)) (r : Review)
    (c : ReviewComment) (ha : r.userLogin = actor)
    (hq : stringIncludes c.body suggestionMarker = true)
    (hp : fps.contains c.path = true) (hc : c ∈ r.comments) :
    r ∈ rs → (mapLookup (addReviews actor fps rs m) c.path).isSome = true := by
  induction rs generalizing m with
  | nil => intro hr; cases hr
  | cons d ds ih =>
    intro hr
    rcases List.mem_cons.mp hr with heq | hmem
    · subst heq
      simp only [addReviews, ha, if_pos]
      exact addReviews_isSome_mono _ _ _ _ _
        (addComments_hit _ _ _ _ hq hp hc)
    · simp only [addReviews]
      exact ih _ hmem

/-- A suggestion whose path has an existing comment id is scheduled as
an update. -/
theorem partition_update_mem (existing : List (String × Nat))
    (suggs : List CommitSuggestion) (s : CommitSuggestion) (cid : Nat)
    (h : mapLookup existing s.filePath = some cid) :
    s ∈ suggs → (cid, s.suggestion) ∈ (partitionSuggestions existing suggs).1 := by
  induction suggs with
  | nil => intro hs; cases hs
  | cons t ts ih =>
    intro hs
    rcases List.mem_cons.mp hs with heq | hmem
    · subst heq
      simp only [partitionSuggestions, h]
      exact List.mem_cons_self _ _
    · simp only [partitionSuggestions]
      cases hl : mapLookup existing t.filePath with
      | some c2 => exact List.mem_cons_of_mem _ (ih hmem)
      | none => exact ih hmem

/-- Every suggestion scheduled for creation has no existing comment. -/
theorem partition_new_none (existing : List (String × Nat))
    (suggs : List CommitSuggestion) (t : CommitSuggestion) :
    t ∈ (partitionSuggestions existing suggs).2 →
      mapLookup existing t.filePath = none := by
  induction suggs with
  | nil => intro ht; simp [partitionSuggestions] at ht
  | cons s ss ih =>
    intro ht
    simp only [partitionSuggestions] at ht
    cases hl : mapLookup existing s.filePath with
    | some cid =>
      rw [hl] at ht
      exact ih ht
    | none =>
      rw [hl] at ht
      rcases List.mem_cons.mp ht with heq | hmem
      · subst heq; exact hl
      · exact ih hmem

/-- Claim C7: a `CommitSuggestion` whose `filePath` already carries a
live suggestion-marked comment by this integration is delivered as an
update of that comment's body, and no comment of any create batch in the
same run targets that path, so repeated runs do not accumulate
comments. -/
theorem c7_existing_suggestion_updated_not_created (env : PREnv)
    (d : PRSuggestionData) (hperm : env.permission403 = false)
    (s : CommitSuggestion) (hs : s ∈ d.suggestions) (r : Review)
    (hr : r ∈ env.reviews) (ha : r.userLogin = env.actor)
    (c : ReviewComment) (hc : c ∈ r.comments)
    (hmark : stringIncludes c.body suggestionMarker = true)
    (hpath : c.path = s.filePath) :
    (∃ cid, mapLookup (V1.existingOf env d) s.filePath = some cid ∧
      Op.updateComment cid (suggestionBody s.suggestion) ∈ (V1.run env d).ops) ∧
    ∀ cs, Op.createReview cs ∈ (V1.run env d).ops →
      ∀ nc ∈ cs, nc.path ≠ s.filePath := by
  have h0 : ¬ d.suggestions.length = 0 := by
    simp only [List.length_eq_zero]
    exact List.ne_nil_of_mem hs
  have hops : (V1.run env d).ops =
      [.repoGet, .prGet, .listReviews] ++ pendingReviewOps env ++
        [.listReviews] ++ commentListOps env ++ V1.updateOps env d ++
        V1.createOps env d := by
    simp [V1.run, h0, hperm]
  have hfp : (d.suggestions.map (fun s => s.filePath)).contains c.path = true := by
    rw [hpath]
    exact contains_of_mem (List.mem_map_of_mem _ hs)
  have hsome : (mapLookup (V1.existingOf env d) s.filePath).isSome = true := by
    rw [← hpath]
    exact addReviews_hit env.actor _ env.reviews [] r c ha hmark hfp hc hr
  obtain ⟨cid, hcid⟩ := Option.isSome_iff_exists.mp hsome
  constructor
  · refine ⟨cid, hcid, ?_⟩
    rw [hops]
    have hmem : Op.updateComment cid (suggestionBody s.suggestion) ∈
        V1.updateOps env d :=
      List.mem_map_of_mem _ (partition_update_mem _ _ _ _ hcid hs)
    simp [hmem]
  · intro cs hcs nc hnc
    rw [hops] at hcs
    have hcreate : Op.createReview cs ∈ V1.createOps env d := by
      simp only [List.mem_append] at hcs
      rcases hcs with ((((h1 | h2) | h3) | h4) | h5) | h6
      · simp at h1
      · unfold pendingReviewOps at h2
        cases hfind : findExistingPendingReview env <;> rw [hfind] at h2 <;>
          simp at h2
      · simp at h3
      · unfold commentListOps at h4
        rcases List.mem_map.mp h4 with ⟨r', _, hr'⟩
        cases hr'
      · unfold V1.updateOps at h5
        rcases List.mem_map.mp h5 with ⟨u, _, hu⟩
        cases hu
      · exact h6
    unfold V1.createOps at hcreate
    by_cases hemp : (V1.newSuggestions env d).isEmpty = true
    · rw [if_pos hemp] at hcreate
      cases hcreate
    · rw [if_neg hemp] at hcreate
      rcases List.mem_cons.mp hcreate with heq | habs
      · have hcs' : cs = (V1.newSuggestions env d).map (fun t =>
            ⟨t.filePath, none, some 1, suggestionBody t.suggestion⟩) := by
          injection heq.symm with h'
          exact h'.symm
        rw [hcs'] at hnc
        rcases List.mem_map.mp hnc with ⟨t, htmem, hteq⟩
        have hnone : mapLookup (V1.existingOf env d) t.filePath = none :=
          partition_new_none _ _ _ htmem
        intro hpathEq
        rw [← hteq] at hpathEq
        simp only at hpathEq
        rw [hpathEq] at hnone
        rw [hnone] at hcid
        cases hcid
      · cases habs

/-- Witness for C7: with one suggestion for `docs/a.md` and an existing
suggestion comment 42 on that path, the run updates comment 42 and no
create batch targets `docs/a.md`. -/
theorem c7_existing_suggestion_updated_not_created_witness :
    ((∃ cid, mapLookup
        (V1.existingOf sampleEnvExisting (sampleData [sampleSuggestion]))
        sampleSuggestion.filePath = some cid ∧
      Op.updateComment cid (suggestionBody sampleSuggestion.suggestion) ∈
        (V1.run sampleEnvExisting (sampleData [sampleSuggestion])).ops) ∧
    ∀ cs, Op.createReview cs ∈
        (V1.run sampleEnvExisting (sampleData [sampleSuggestion])).ops →
      ∀ nc ∈ cs, nc.path ≠ sampleSuggestion.filePath) :=
  c7_existing_suggestion_updated_not_created sampleEnvExisting
    (sampleData [sampleSuggestion]) rfl sampleSuggestion (by decide)
    ⟨9, "COMMENTED", some 5, "acrolinx-bot",
      [⟨42, "docs/a.md", "```suggestion\nnew text\n```"⟩]⟩
    (by decide) rfl
    ⟨42, "docs/a.md", "```suggestion\nnew text\n```"⟩ (by decide)
    (by decide) rfl

/-- `setBranch` preserves the branch name list. -/
theorem setBranch_names (m : List (String × String)) (k v : String) :
    (Rewrite.setBranch m k v).map Prod.fst = m.map Prod.fst := by
  induction m with
  | nil => rfl
  | cons p rest ih =>
    simp only [Rewrite.setBranch, List.map_cons] at ih ⊢
    by_cases h : p.1 = k
    · rw [if_pos h, ih, h]

    · rw [if_neg h, ih]

/-- A branch lookup succeeds exactly when the name is present. -/
theorem lookupBranch_isSome_iff (m : List (String × String)) (k : String) :
    (Rewrite.lookupBranch m k).isSome = true ↔ k ∈ m.map Prod.fst := by
  induction m with
  | nil => simp [Rewrite.lookupBranch]
  | cons p rest ih =>
    obtain ⟨a, b⟩ := p
    by_cases h : a = k
    · simp [Rewrite.lookupBranch, h]
    · simp only [Rewrite.lookupBranch, if_neg h, List.map_cons,
        List.mem_cons, ih]
      constructor
      · intro hm; exact Or.inr hm
      · intro hm
        rcases hm with heq | hm
        · exact absurd heq.symm h
        · exact hm

/-- `applyFiles` rewrites branch shas but preserves the branch name
list, the pull requests, and the PR counter. -/
theorem applyFiles_state (bn : String)
    (files : List Rewrite.RewriteResult) (s : Rewrite.GState) :
    ((Rewrite.applyFiles bn files s).1).branches.map Prod.fst =
        s.branches.map Prod.fst ∧
    ((Rewrite.applyFiles bn files s).1).prs = s.prs ∧
    ((Rewrite.applyFiles bn files s).1).prCounter = s.prCounter := by
  induction files generalizing s with
  | nil => exact ⟨rfl, rfl, rfl⟩
  | cons f fs ih =>
    have step := ih ({ s with branches := (Rewrite.setBranch s.branches bn (Rewrite.mkCommitSha f.filePath ((Rewrite.lookupBranch s.branches bn).getD ""))) })
    exact ⟨step.1.trans (setBranch_names _ _ _), step.2.1, step.2.2⟩

/-- All operations issued by `applyFiles` are content reads/writes. -/
theorem applyFiles_ops (bn : String) (files : List Rewrite.RewriteResult)
    (s : Rewrite.GState) :
    ∀ op ∈ (Rewrite.applyFiles bn files s).2,
      (∃ p b, op = Rewrite.GOp.getContent p b) ∨
      (∃ p b, op = Rewrite.GOp.putContent p b) := by
  induction files generalizing s with
  | nil => intro op hop; cases hop
  | cons f fs ih =>
    intro op hop
    rcases List.mem_append.mp hop with h | h
    · rcases List.mem_cons.mp h with rfl | h2
      · exact Or.inl ⟨_, _, rfl⟩
      · rcases List.mem_cons.mp h2 with rfl | h3
        · exact Or.inr ⟨_, _, rfl⟩
        · cases h3
    · exact ih _ _ h

/-- `createRewriteBranch` when the rewrite branch already exists: the
branch is reset and updated in place, the result is returned, and the
branch name list, pull requests, and PR counter are unchanged. -/
theorem createRewriteBranch_existing (ctx : Rewrite.Ctx)
    (files : List Rewrite.RewriteResult) (s : Rewrite.GState)
    (hf : files ≠ [])
    (hb : (Rewrite.lookupBranch s.branches
      (Rewrite.branchName ctx.prNumber)).isSome = true)
    (hsha : String)
    (hh : Rewrite.lookupBranch s.branches (ctx.headRef.getD "main") =
      some hsha) :
    ∃ s1 ops,
      Rewrite.createRewriteBranch ctx files s =
        (s1, ops,
          some ⟨Rewrite.branchName ctx.prNumber, ctx.prNumber, ctx.sha,
            files⟩) ∧
      s1.branches.map Prod.fst = s.branches.map Prod.fst ∧
      s1.prs = s.prs ∧ s1.prCounter = s.prCounter := by
  have hfe : files.isEmpty = false := by
    cases files with
    | nil => cases hf rfl
    | cons a l => rfl
  unfold Rewrite.createRewriteBranch
  simp only [hfe, Bool.false_eq_true, if_false, hh, hb, Bool.not_true]
  refine ⟨_, _, rfl, ?_, ?_, ?_⟩
  · rw [(applyFiles_state _ _ _).1]
    exact setBranch_names _ _ _
  · exact (applyFiles_state _ _ _).2.1
  · exact (applyFiles_state _ _ _).2.2

/-- Claim C2: the rewrite-branch pipeline is idempotent per change
request: the branch name is a function of the change-request number
alone, and running the flow twice with the same rewrite set against an
already-existing branch adds no branch name either time, adds no pull
request in the second run, and returns the same PR url both times. -/
theorem c2_rewrite_flow_idempotent (ctx : Rewrite.Ctx)
    (files : List Rewrite.RewriteResult) (s : Rewrite.GState)
    (hf : files ≠ [])
    (hb : (Rewrite.lookupBranch s.branches
      (Rewrite.branchName ctx.prNumber)).isSome = true)
    (hsha : String)
    (hh : Rewrite.lookupBranch s.branches (ctx.headRef.getD "main") =
      some hsha) :
    Rewrite.branchName ctx.prNumber =
      "acrolinx-rewrite-" ++ toString ctx.prNumber ∧
    ∃ s1 ops1 u s2 ops2,
      Rewrite.rewriteFlow ctx files s = (s1, ops1, some u) ∧
      Rewrite.rewriteFlow ctx files s1 = (s2, ops2, some u) ∧
      s1.branches.map Prod.fst = s.branches.map Prod.fst ∧
      s2.branches.map Prod.fst = s.branches.map Prod.fst ∧
      s2.prs = s1.prs := by
  refine ⟨rfl, ?_⟩
  obtain ⟨sb, ops, heq, hnames, hprs, hctr⟩ :=
    createRewriteBranch_existing ctx files s hf hb hsha hh
  have hb2 : (Rewrite.lookupBranch sb.branches
      (Rewrite.branchName ctx.prNumber)).isSome = true := by
    rw [lookupBranch_isSome_iff, hnames, ← lookupBranch_isSome_iff]
    exact hb
  have hh2some : (Rewrite.lookupBranch sb.branches
      (ctx.headRef.getD "main")).isSome = true := by
    rw [lookupBranch_isSome_iff, hnames, ← lookupBranch_isSome_iff, hh]
    rfl
  obtain ⟨sha2, hh2⟩ := Option.isSome_iff_exists.mp hh2some
  cases hfilt : (sb.prs.filter (fun p =>
      p.head = Rewrite.branchName ctx.prNumber)).head? with
  | some p =>
    have hflow1 : Rewrite.rewriteFlow ctx files s =
        (sb, ops ++ [.listPulls (Rewrite.branchName ctx.prNumber)],
          some p.url) := by
      simp only [Rewrite.rewriteFlow, heq,
        Rewrite.createRewritePullRequest, hfilt]
    obtain ⟨sb2, ops2, heq2, hnames2, hprs2, hctr2⟩ :=
      createRewriteBranch_existing ctx files sb hf hb2 sha2 hh2
    have hfilt2 : (sb2.prs.filter (fun p =>
        p.head = Rewrite.branchName ctx.prNumber)).head? = some p := by
      rw [hprs2, hfilt]
    have hflow2 : Rewrite.rewriteFlow ctx files sb =
        (sb2, ops2 ++ [.listPulls (Rewrite.branchName ctx.prNumber)],
          some p.url) := by
      simp only [Rewrite.rewriteFlow, heq2,
        Rewrite.createRewritePullRequest, hfilt2]
    exact ⟨sb, _, p.url, sb2, _, hflow1, hflow2, hnames,
      by rw [hnames2, hnames], by rw [hprs2]⟩
  | none =>
    have hfiltnil : sb.prs.filter (fun p =>
        p.head = Rewrite.branchName ctx.prNumber) = [] :=
      List.head?_eq_none_iff.mp hfilt
    have hflow1 : Rewrite.rewriteFlow ctx files s =
        ({ sb with
            prs := sb.prs ++ [⟨Rewrite.branchName ctx.prNumber,
              ctx.headRef.getD "main", Rewrite.prUrl sb.prCounter⟩],
            prCounter := sb.prCounter + 1 },
          ops ++ [.listPulls (Rewrite.branchName ctx.prNumber),
            .createPull (Rewrite.branchName ctx.prNumber)
              (ctx.headRef.getD "main")],
          some (Rewrite.prUrl sb.prCounter)) := by
      simp only [Rewrite.rewriteFlow, heq,
        Rewrite.createRewritePullRequest, hfilt]
    set s1 : Rewrite.GState :=
      { sb with
        prs := sb.prs ++ [⟨Rewrite.branchName ctx.prNumber,
          ctx.headRef.getD "main", Rewrite.prUrl sb.prCounter⟩],
        prCounter := sb.prCounter + 1 } with hs1
    have hnames1 : s1.branches.map Prod.fst = s.branches.map Prod.fst :=
      hnames
    have hb3 : (Rewrite.lookupBranch s1.branches
        (Rewrite.branchName ctx.prNumber)).isSome = true := by
      rw [lookupBranch_isSome_iff, hnames1, ← lookupBranch_isSome_iff]
      exact hb
    have hh3some : (Rewrite.lookupBranch s1.branches
        (ctx.headRef.getD "main")).isSome = true := by
      rw [lookupBranch_isSome_iff, hnames1, ← lookupBranch_isSome_iff, hh]
      rfl
    obtain ⟨sha3, hh3⟩ := Option.isSome_iff_exists.mp hh3some
    obtain ⟨sb3, ops3, heq3, hnames3, hprs3, hctr3⟩ :=
      createRewriteBranch_existing ctx files s1 hf hb3 sha3 hh3
    have hfilt3 : (sb3.prs.filter (fun p =>
        p.head = Rewrite.branchName ctx.prNumber)).head? =
        some ⟨Rewrite.branchName ctx.prNumber, ctx.headRef.getD "main",
          Rewrite.prUrl sb.prCounter⟩ := by
      rw [hprs3, hs1]
      simp only [List.filter_append, hfiltnil]
      simp
    have hflow2 : Rewrite.rewriteFlow ctx files s1 =
        (sb3, ops3 ++ [.listPulls (Rewrite.branchName ctx.prNumber)],
          some (Rewrite.prUrl sb.prCounter)) := by
      simp only [Rewrite.rewriteFlow, heq3,
        Rewrite.createRewritePullRequest, hfilt3]
    exact ⟨s1, _, Rewrite.prUrl sb.prCounter, sb3, _, hflow1, hflow2,
      hnames1, by rw [hnames3, hnames1], by rw [hprs3]⟩

/-- Witness for C2: with the branch for PR 5 existing and head branch
`feature` present, running the flow twice yields the same URL, no new
branch name, and no second PR. -/
theorem c2_rewrite_flow_idempotent_witness :
    Rewrite.branchName sampleCtx.prNumber =
      "acrolinx-rewrite-" ++ toString sampleCtx.prNumber ∧
    ∃ s1 ops1 u s2 ops2,
      Rewrite.rewriteFlow sampleCtx sampleFiles sampleStateWithBranch =
        (s1, ops1, some u) ∧
      Rewrite.rewriteFlow sampleCtx sampleFiles s1 = (s2, ops2, some u) ∧
      s1.branches.map Prod.fst =
        sampleStateWithBranch.branches.map Prod.fst ∧
      s2.branches.map Prod.fst =
        sampleStateWithBranch.branches.map Prod.fst ∧
      s2.prs = s1.prs :=
  c2_rewrite_flow_idempotent sampleCtx sampleFiles sampleStateWithBranch
    (by decide) (by decide) "f1" (by decide)

/-- `createRewriteBranch` when the rewrite branch is absent: the branch
is created from the head branch's sha, followed only by per-file content
operations. -/
theorem createRewriteBranch_absent (ctx : Rewrite.Ctx)
    (files : List Rewrite.RewriteResult) (s : Rewrite.GState)
    (hf : files ≠ [])
    (habs : Rewrite.lookupBranch s.branches
      (Rewrite.branchName ctx.prNumber) = none)
    (hsha : String)
    (hh : Rewrite.lookupBranch s.branches (ctx.headRef.getD "main") =
      some hsha) :
    ∃ sA fileOps,
      Rewrite.createRewriteBranch ctx files s =
        (sA,
          Rewrite.GOp.getBranch (Rewrite.branchName ctx.prNumber) ::
            Rewrite.GOp.getBranch (ctx.headRef.getD "main") ::
            Rewrite.GOp.createRef (Rewrite.branchName ctx.prNumber) hsha ::
            fileOps,
          some ⟨Rewrite.branchName ctx.prNumber, ctx.prNumber, ctx.sha,
            files⟩) ∧
      ∀ op ∈ fileOps,
        (∃ p b, op = Rewrite.GOp.getContent p b) ∨
        (∃ p b, op = Rewrite.GOp.putContent p b) := by
  have hfe : files.isEmpty = false := by
    cases files with
    | nil => cases hf rfl
    | cons a l => rfl
  unfold Rewrite.createRewriteBranch
  simp only [hfe, Bool.false_eq_true, if_false, hh, habs,
    Option.isSome_none, Bool.not_false, if_true]
  exact ⟨_, _, rfl, applyFiles_ops _ _ _⟩

/-- Claim C8: the rewrite branch is always based on the change request's
current head ref: when absent, the branch is created from the head ref's
sha; any created rewrite PR has the head branch as its base; and the
whole flow is independent of the change request's base ref. -/
theorem c8_branch_based_on_head_ref (ctx : Rewrite.Ctx)
    (files : List Rewrite.RewriteResult) (s : Rewrite.GState)
    (rref : String) (hsha : String) (href : ctx.headRef = some rref)
    (hf : files ≠ [])
    (habs : Rewrite.lookupBranch s.branches
      (Rewrite.branchName ctx.prNumber) = none)
    (hh : Rewrite.lookupBranch s.branches rref = some hsha) :
    Rewrite.GOp.createRef (Rewrite.branchName ctx.prNumber) hsha ∈
      (Rewrite.rewriteFlow ctx files s).2.1 ∧
    (∀ hd bs,
      Rewrite.GOp.createPull hd bs ∈ (Rewrite.rewriteFlow ctx files s).2.1 →
      hd = Rewrite.branchName ctx.prNumber ∧ bs = rref) ∧
    (∀ b', Rewrite.rewriteFlow { ctx with baseRef := b' } files s =
      Rewrite.rewriteFlow ctx files s) := by
  have hget : ctx.headRef.getD "main" = rref := by rw [href]; rfl
  have hh' : Rewrite.lookupBranch s.branches (ctx.headRef.getD "main") =
      some hsha := by rw [hget]; exact hh
  obtain ⟨sA, fileOps, heq, hfops⟩ :=
    createRewriteBranch_absent ctx files s hf habs hsha hh'
  cases hfilt : (sA.prs.filter (fun p =>
      p.head = Rewrite.branchName ctx.prNumber)).head? with
  | some p =>
    have hflow : Rewrite.rewriteFlow ctx files s =
        (sA,
          (Rewrite.GOp.getBranch (Rewrite.branchName ctx.prNumber) ::
            Rewrite.GOp.getBranch (ctx.headRef.getD "main") ::
            Rewrite.GOp.createRef (Rewrite.branchName ctx.prNumber) hsha ::
            fileOps) ++ [.listPulls (Rewrite.branchName ctx.prNumber)],
          some p.url) := by
      simp only [Rewrite.rewriteFlow, heq,
        Rewrite.createRewritePullRequest, hfilt]
    refine ⟨?_, ?_, ?_⟩
    · rw [hflow]
      simp
    · intro hd bs hmem
      rw [hflow] at hmem
      rcases List.mem_append.mp hmem with h | h
      · rcases List.mem_cons.mp h with h1 | h
        · cases h1
        rcases List.mem_cons.mp h with h1 | h
        · cases h1
        rcases List.mem_cons.mp h with h1 | h
        · cases h1
        rcases hfops _ h with ⟨p', b', h2⟩ | ⟨p', b', h2⟩ <;> cases h2
      · rcases List.mem_cons.mp h with h1 | h1
        · cases h1
        · cases h1
    · intro b'; rfl
  | none =>
    have hflow : Rewrite.rewriteFlow ctx files s =
        ({ sA with
            prs := sA.prs ++ [⟨Rewrite.branchName ctx.prNumber,
              ctx.headRef.getD "main", Rewrite.prUrl sA.prCounter⟩],
            prCounter := sA.prCounter + 1 },
          (Rewrite.GOp.getBranch (Rewrite.branchName ctx.prNumber) ::
            Rewrite.GOp.getBranch (ctx.headRef.getD "main") ::
            Rewrite.GOp.createRef (Rewrite.branchName ctx.prNumber) hsha ::
            fileOps) ++ [.listPulls (Rewrite.branchName ctx.prNumber),
              .createPull (Rewrite.branchName ctx.prNumber)
                (ctx.headRef.getD "main")],
          some (Rewrite.prUrl sA.prCounter)) := by
      simp only [Rewrite.rewriteFlow, heq,
        Rewrite.createRewritePullRequest, hfilt]
    refine ⟨?_, ?_, ?_⟩
    · rw [hflow]
      simp
    · intro hd bs hmem
      rw [hflow] at hmem
      rcases List.mem_append.mp hmem with h | h
      · rcases List.mem_cons.mp h with h1 | h
        · cases h1
        rcases List.mem_cons.mp h with h1 | h
        · cases h1
        rcases List.mem_cons.mp h with h1 | h
        · cases h1
        rcases hfops _ h with ⟨p', b', h2⟩ | ⟨p', b', h2⟩ <;> cases h2
      · rcases List.mem_cons.mp h with h1 | h1
        · cases h1
        · rcases List.mem_cons.mp h1 with h2 | h2
          · injection h2 with e1 e2
            exact ⟨e1, by rw [e2, hget]⟩
          · cases h2
    · intro b'; rfl

/-- Witness for C8: from a state without the rewrite branch, the flow
creates the branch from `feature`'s sha `f1` and any created PR targets
`feature`. -/
theorem c8_branch_based_on_head_ref_witness :
    Rewrite.GOp.createRef (Rewrite.branchName sampleCtx.prNumber) "f1" ∈
      (Rewrite.rewriteFlow sampleCtx sampleFiles sampleStateNoBranch).2.1 ∧
    (∀ hd bs,
      Rewrite.GOp.createPull hd bs ∈
        (Rewrite.rewriteFlow sampleCtx sampleFiles sampleStateNoBranch).2.1 →
      hd = Rewrite.branchName sampleCtx.prNumber ∧ bs = "feature") ∧
    (∀ b', Rewrite.rewriteFlow { sampleCtx with baseRef := b' }
        sampleFiles sampleStateNoBranch =
      Rewrite.rewriteFlow sampleCtx sampleFiles sampleStateNoBranch) :=
  c8_branch_based_on_head_ref sampleCtx sampleFiles sampleStateNoBranch
    "feature" "f1" rfl (by decide) (by decide) (by decide)

/-- Characterization of the sweep loop: every old branch is attempted
(independently of deletion outcomes), and exactly the attempts whose
deletion succeeds are deleted. -/
theorem sweepLoop_spec (now maxAgeDays : Int) (ok : String → Bool)
    (bs : List Sweep.BranchInfo) :
    (Sweep.sweepLoop now maxAgeDays ok bs).1 =
      (bs.filter (Sweep.isOlder now maxAgeDays)).map (fun b => b.name) ∧
    (Sweep.sweepLoop now maxAgeDays ok bs).2.1 =
      ((Sweep.sweepLoop now maxAgeDays ok bs).1).filter ok := by
  induction bs with
  | nil => exact ⟨rfl, rfl⟩
  | cons b bs ih =>
    by_cases hold : Sweep.isOlder now maxAgeDays b = true
    · by_cases hok : ok b.name = true
      · constructor
        · simp [Sweep.sweepLoop, hold, hok, List.filter_cons, ih.1]
        · simp [Sweep.sweepLoop, hold, hok, List.filter_cons, ih.2]
      · constructor
        · simp [Sweep.sweepLoop, hold, hok, List.filter_cons, ih.1]
        · simp [Sweep.sweepLoop, hold, hok, List.filter_cons, ih.2]
    · constructor
      · simp [Sweep.sweepLoop, hold, List.filter_cons, ih.1]
      · simp [Sweep.sweepLoop, hold, ih.2]

/-- Claim C9: the retention sweeper attempts to delete exactly the
branches matching the rewrite naming convention whose last commit is
older than the retention window, independently of deletion outcomes;
the deleted branches are the attempts that succeed; on branches aged
[10d, 2d, main(0d)] with the default 7-day window it deletes exactly the
10-day branch, and when deletions fail it still attempts that branch and
logs a warning. -/
theorem c9_retention_sweep :
    (∀ (branches : List Sweep.BranchInfo) (now : Int)
        (deleteOk : String → Bool) (maxAgeDays : Int),
      (Sweep.cleanupOldRewriteBranches branches now deleteOk maxAgeDays).1 =
        (branches.filter (fun b =>
          strStartsWith b.name "acrolinx-rewrite-" &&
            Sweep.isOlder now maxAgeDays b)).map (fun b => b.name)) ∧
    (∀ (branches : List Sweep.BranchInfo) (now : Int)
        (deleteOk : String → Bool) (maxAgeDays : Int),
      (Sweep.cleanupOldRewriteBranches branches now deleteOk maxAgeDays).2.1 =
        ((Sweep.cleanupOldRewriteBranches branches now deleteOk
          maxAgeDays).1).filter deleteOk) ∧
    Sweep.cleanupDefault sampleBranches 1000000000000 (fun _ => true) =
      (["acrolinx-rewrite-1"], ["acrolinx-rewrite-1"], []) ∧
    Sweep.cleanupDefault sampleBranches 1000000000000 (fun _ => false) =
      (["acrolinx-rewrite-1"], [],
        [Sweep.deleteFailedMsg "acrolinx-rewrite-1"]) := by
  refine ⟨?_, ?_, by decide, by decide⟩
  · intro branches now ok maxAge
    unfold Sweep.cleanupOldRewriteBranches
    rw [(sweepLoop_spec now maxAge ok _).1, List.filter_filter]
    congr 1
    apply List.filter_congr
    intro b _
    exact Bool.and_comm _ _
  · intro branches now ok maxAge
    exact (sweepLoop_spec now maxAge ok _).2
